import Mathlib

/-!
Verification of the cost-function scripts of the MachineLearningCourse
repository.  The repository holds three small Python scripts:

* `CostFunction.py` defines `compute_cost(w, b, x, y)`: it sets
  `m = x.shape[0]`, accumulates `(w*x[i] + b - y[i])**2` for `i` in
  `range(m)`, and returns `(1/(2*m)) * cost_sum`.
* `LinearRegression.py` defines `compute_cost(x, y, w, b)` with the same
  body (only the parameter order differs) and a stub `compute_gradient`.
* `linearRegression.py` defines `compite_model_output(x, w, b)`: it
  allocates `f_wb = np.zeros(m)` and fills `f_wb[j] = w * x[j] + b` for
  each `j` in `range(m)`.

Numbers are embedded as rationals.  The indexing `y[i]` can fail
(Python raises `IndexError` when `i` is out of bounds) and the final
division fails when `m = 0` (`ZeroDivisionError`), so `compute_cost`
returns an `Option ℚ` : `none` models any raised exception.  The loop is
embedded as a left fold over `List.range m` whose accumulator carries the
possibility of failure, exactly mirroring the order of evaluation of the
Python loop (indexing errors happen inside the loop, the division error
happens after it).
-/

namespace MLCourse

/-- One iteration of the loop `cost_sum += (w * x[i] + b - y[i])**2`
of `CostFunction.py`.  Fails (propagates `none`) when the accumulator has
already failed or when either index access is out of bounds. -/
def costStep (w b : ℚ) (x y : List ℚ) (acc : Option ℚ) (i : Nat) : Option ℚ :=
  match acc, x[i]?, y[i]? with
  | some s, some xi, some yi => some (s + (w * xi + b - yi) ^ 2)
  | _, _, _ => none

namespace CostFunction

/-- Shallow embedding of `compute_cost(w, b, x, y)` from
`src/CostFunction.py`:
`m = x.shape[0]`; `cost_sum = 0`; for `i in range(m)`:
`cost_sum += (w * x[i] + b - y[i])**2`; `total_cost = (1/(2*m)) * cost_sum`.
The division `1/(2*m)` fails when `m = 0`. -/
def compute_cost (w b : ℚ) (x y : List ℚ) : Option ℚ :=
  let m := x.length
  match (List.range m).foldl (costStep w b x y) (some 0) with
  | none => none
  | some cost_sum =>
      if m = 0 then none else some (1 / (2 * (m : ℚ)) * cost_sum)

end CostFunction

namespace LinearRegression

/-- Shallow embedding of `compute_cost(x, y, w, b)` from
`src/LinearRegression.py`:
`m = x.shape[0]`; `cost = 0`; for `i in range(m)`:
`cost += (w*x[i]+b-y[i])**2`; return `1/(2*m)*cost`. -/
def compute_cost (x y : List ℚ) (w b : ℚ) : Option ℚ :=
  let m := x.length
  match (List.range m).foldl (costStep w b x y) (some 0) with
  | none => none
  | some cost =>
      if m = 0 then none else some (1 / (2 * (m : ℚ)) * cost)

end LinearRegression

namespace ModelOutput

/-- Shallow embedding of `compite_model_output(x, w, b)` from
`src/linearRegression.py`:
`m = x.shape[0]`; `f_wb = np.zeros(m)`; for `j in range(m)`:
`f_wb[j] = w * x[j] + b`; return `f_wb`.
(`x[j]` with `j < m` never fails, so the function is total.) -/
def compite_model_output (x : List ℚ) (w b : ℚ) : List ℚ :=
  let m := x.length
  (List.range m).foldl (fun f_wb j => f_wb.set j (w * x.getD j 0 + b))
    (List.replicate m 0)

end ModelOutput

/-- The mathematical sum of squared residuals over the first `m` indices,
`∑ i < m, (w·x[i] + b − y[i])²`, used to state the specification. -/
def sqSum (w b : ℚ) (x y : List ℚ) (m : Nat) : ℚ :=
  ((List.range m).map (fun i => (w * x.getD i 0 + b - y.getD i 0) ^ 2)).sum

/-! ### Helper lemmas about the loop embedding -/

lemma costStep_acc_none (w b : ℚ) (x y : List ℚ) (i : Nat) :
    costStep w b x y none i = none := rfl

lemma costStep_y_oob (w b : ℚ) (x y : List ℚ) (acc : Option ℚ) (i : Nat)
    (h : y.length ≤ i) : costStep w b x y acc i = none := by
  have hy : y[i]? = none := List.getElem?_eq_none h
  cases acc with
  | none => rfl
  | some s =>
    cases hx : x[i]? with
    | none => simp [costStep, hy, hx]
    | some xi => simp [costStep, hy, hx]

lemma costStep_some (w b : ℚ) (x y : List ℚ) (s : ℚ) (i : Nat)
    (hx : i < x.length) (hy : i < y.length) :
    costStep w b x y (some s) i
      = some (s + (w * x.getD i 0 + b - y.getD i 0) ^ 2) := by
  simp [costStep, List.getElem?_eq_getElem hx, List.getElem?_eq_getElem hy,
    List.getD_eq_getElem x 0 hx, List.getD_eq_getElem y 0 hy]

lemma sqSum_succ (w b : ℚ) (x y : List ℚ) (k : Nat) :
    sqSum w b x y (k + 1)
      = sqSum w b x y k + (w * x.getD k 0 + b - y.getD k 0) ^ 2 := by
  simp [sqSum, List.range_succ]

lemma foldl_costStep_some (w b : ℚ) (x y : List ℚ) (k : Nat)
    (hx : k ≤ x.length) (hy : k ≤ y.length) (s : ℚ) :
    (List.range k).foldl (costStep w b x y) (some s)
      = some (s + sqSum w b x y k) := by
  induction k with
  | zero => simp [sqSum]
  | succ k ih =>
    rw [List.range_succ, List.foldl_append,
      ih (Nat.le_of_succ_le hx) (Nat.le_of_succ_le hy)]
    simp only [List.foldl_cons, List.foldl_nil]
    rw [costStep_some w b x y _ k hx hy, sqSum_succ, add_assoc]

lemma foldl_costStep_oob (w b : ℚ) (x y : List ℚ) :
    ∀ (k : Nat), y.length < k → ∀ (acc : Option ℚ),
      (List.range k).foldl (costStep w b x y) acc = none := by
  intro k
  induction k with
  | zero => intro h; omega
  | succ k ih =>
    intro h acc
    rw [List.range_succ, List.foldl_append]
    simp only [List.foldl_cons, List.foldl_nil]
    rcases Nat.lt_or_ge y.length k with hk | hk
    · rw [ih hk acc]
      rfl
    · exact costStep_y_oob w b x y _ k (by omega)

/-- Success characterization of the embedded `compute_cost` of
`CostFunction.py`: when `m = len(x) ≠ 0` and `y` is at least as long as
`x`, the call succeeds and returns `(1/(2m)) · ∑ i < m, (w·x[i]+b−y[i])²`. -/
lemma compute_cost_some_eq (w b : ℚ) (x y : List ℚ)
    (h1 : x.length ≠ 0) (h2 : x.length ≤ y.length) :
    CostFunction.compute_cost w b x y
      = some (1 / (2 * (x.length : ℚ)) * sqSum w b x y x.length) := by
  simp only [CostFunction.compute_cost]
  rw [foldl_costStep_some w b x y x.length le_rfl h2 0]
  simp [h1]

/-- Failure characterization of the embedded `compute_cost`: it fails
exactly when `len(x) = 0` (Python: `ZeroDivisionError` in `1/(2*m)`) or
`len(y) < len(x)` (Python: `IndexError` at `y[i]`). -/
lemma compute_cost_none_iff (w b : ℚ) (x y : List ℚ) :
    CostFunction.compute_cost w b x y = none ↔
      x.length = 0 ∨ y.length < x.length := by
  constructor
  · intro h
    by_contra hcon
    push_neg at hcon
    obtain ⟨h1, h2⟩ := hcon
    rw [compute_cost_some_eq w b x y h1 h2] at h
    exact Option.noConfusion h
  · rintro (h | h)
    · simp only [CostFunction.compute_cost]
      simp [h]
    · simp only [CostFunction.compute_cost]
      rw [foldl_costStep_oob w b x y x.length h]

/-- The two Python files define `compute_cost` with identical bodies; the
embeddings agree definitionally. -/
lemma lr_eq_cf (w b : ℚ) (x y : List ℚ) :
    LinearRegression.compute_cost x y w b = CostFunction.compute_cost w b x y := rfl

lemma sqSum_cons (w b a c : ℚ) (x y : List ℚ) (k : Nat) :
    sqSum w b (a :: x) (c :: y) (k + 1)
      = (w * a + b - c) ^ 2 + sqSum w b x y k := by
  simp [sqSum, List.range_succ_eq_map, List.map_map, Function.comp_def,
    List.getD_cons_zero, List.getD_cons_succ]

/-- Over inputs where `y` is at least as long as `x`, the squared-residual
sum is the sum of the per-pair residuals of `x.zip y`. -/
lemma sqSum_eq_zip_sum (w b : ℚ) :
    ∀ (x y : List ℚ), x.length ≤ y.length →
      sqSum w b x y x.length
        = ((x.zip y).map (fun p => (w * p.1 + b - p.2) ^ 2)).sum := by
  intro x
  induction x with
  | nil => intro y _; simp [sqSum]
  | cons a x ih =>
    intro y hy
    cases y with
    | nil => simp at hy
    | cons c y =>
      have hy' : x.length ≤ y.length := by
        simpa [Nat.succ_le_succ_iff] using hy
      rw [List.zip_cons_cons, List.map_cons, List.sum_cons,
        List.length_cons, sqSum_cons, ih y hy']

/-- Truncating `y` to the first `m` entries does not change the first `m`
residuals. -/
lemma sqSum_take (w b : ℚ) (x y : List ℚ) (m : Nat) :
    sqSum w b x (y.take m) m = sqSum w b x y m := by
  unfold sqSum
  congr 1
  apply List.map_congr_left
  intro i hi
  simp only [List.mem_range] at hi
  rw [List.getD_eq_getElem?_getD (y.take m), List.getD_eq_getElem?_getD y,
    List.getElem?_take, if_pos hi]

/-! ### Helper lemmas for the `compite_model_output` loop -/

lemma length_foldl_set (g : Nat → ℚ) (l : List Nat) (init : List ℚ) :
    (l.foldl (fun f_wb j => f_wb.set j (g j)) init).length = init.length := by
  induction l generalizing init with
  | nil => rfl
  | cons a l ih => simp [List.foldl_cons, ih, List.length_set]

lemma getD_foldl_set_range (g : Nat → ℚ) (init : List ℚ) :
    ∀ (k : Nat), k ≤ init.length → ∀ (j : Nat), j < k →
      ((List.range k).foldl (fun f_wb i => f_wb.set i (g i)) init).getD j 0
        = g j := by
  intro k
  induction k with
  | zero => intro _ j hj; omega
  | succ k ih =>
    intro hk j hj
    rw [List.range_succ, List.foldl_append]
    simp only [List.foldl_cons, List.foldl_nil]
    have hlen :
        ((List.range k).foldl (fun f_wb i => f_wb.set i (g i)) init).length
          = init.length := length_foldl_set g _ init
    rcases Nat.lt_or_ge j k with h | h
    · rw [List.getD_eq_getElem?_getD, List.getElem?_set_ne (by omega),
        ← List.getD_eq_getElem?_getD]
      exact ih (by omega) j h
    · have hjk : j = k := by omega
      subst hjk
      rw [List.getD_eq_getElem?_getD, List.getElem?_set_self (by omega)]
      rfl

/-! ### Claim theorems -/

/-- C1: for every sample set of equal-length sequences `x` and `y` with
`m ≥ 1` elements and every pair of rationals `(w, b)`,
`compute_cost(w, b, x, y)` returns exactly `(1/(2m)) · ∑ i < m,
(w·x[i] + b − y[i])²`. -/
theorem C1_cost_formula (w b : ℚ) (x y : List ℚ)
    (h1 : x.length = y.length) (h2 : 1 ≤ x.length) :
    CostFunction.compute_cost w b x y
      = some (1 / (2 * (x.length : ℚ)) * sqSum w b x y x.length) :=
  compute_cost_some_eq w b x y (by omega) (le_of_eq h1)

theorem C1_witness :
    CostFunction.compute_cost 2 0 [1, 2] [2, 4]
      = some (1 / (2 * ((([1, 2] : List ℚ).length : Nat) : ℚ))
          * sqSum 2 0 [1, 2] [2, 4] ([1, 2] : List ℚ).length) :=
  C1_cost_formula 2 0 [1, 2] [2, 4] (by decide) (by decide)

/-- C2 (counterexample): the sequences `x = [1]` and `y = [5, 6]` have
different lengths, yet `compute_cost` does not fail: it returns
`some (25/2)`.  This refutes the claim that `compute_cost` fails exactly
when `m = 0` or the lengths differ. -/
theorem C2_counterexample :
    ([5, 6] : List ℚ).length ≠ ([1] : List ℚ).length ∧
    CostFunction.compute_cost 0 0 [1] [5, 6] = some (25 / 2) := by
  constructor
  · decide
  · simp [CostFunction.compute_cost, costStep, List.range_succ]
    norm_num

/-- C2 (amended): `compute_cost` fails exactly when `m = len(x) = 0` or
`y` is strictly shorter than `x`; in every other case (including a
mismatch where `y` is longer than `x`) it succeeds.  This holds for both
implementations of `compute_cost`. -/
theorem C2_failure_characterization (w b : ℚ) (x y : List ℚ) :
    (CostFunction.compute_cost w b x y = none ↔
      x.length = 0 ∨ y.length < x.length) ∧
    (LinearRegression.compute_cost x y w b = none ↔
      x.length = 0 ∨ y.length < x.length) := by
  refine ⟨compute_cost_none_iff w b x y, ?_⟩
  rw [lr_eq_cf]
  exact compute_cost_none_iff w b x y

/-- C3: for every valid input (equal-length `x` and `y` with `m ≥ 1`),
`compute_cost` succeeds and the returned value is nonnegative. -/
theorem C3_cost_nonneg (w b : ℚ) (x y : List ℚ)
    (h1 : x.length = y.length) (h2 : 1 ≤ x.length) :
    ∃ c, CostFunction.compute_cost w b x y = some c ∧ 0 ≤ c := by
  refine ⟨_, compute_cost_some_eq w b x y (by omega) (le_of_eq h1), ?_⟩
  have hs : 0 ≤ sqSum w b x y x.length := by
    unfold sqSum
    apply List.sum_nonneg
    intro a ha
    simp only [List.mem_map] at ha
    obtain ⟨i, -, rfl⟩ := ha
    positivity
  have hc : (0 : ℚ) ≤ 1 / (2 * (x.length : ℚ)) := by positivity
  exact mul_nonneg hc hs

theorem C3_witness :
    ∃ c, CostFunction.compute_cost 3 1 [1, 2] [2, 4] = some c ∧ 0 ≤ c :=
  C3_cost_nonneg 3 1 [1, 2] [2, 4] (by decide) (by decide)

/-- C4: applying the same permutation to both sequences of a valid sample
set leaves the value of `compute_cost` unchanged.  The identical
reordering is expressed by requiring the zipped pair lists to be
permutations of each other. -/
theorem C4_perm_invariant (w b : ℚ) (x y x' y' : List ℚ)
    (hxy : x.length = y.length) (hxy' : x'.length = y'.length)
    (hm : 1 ≤ x.length) (hperm : (x.zip y).Perm (x'.zip y')) :
    CostFunction.compute_cost w b x y = CostFunction.compute_cost w b x' y' := by
  have hzl := hperm.length_eq
  simp only [List.length_zip] at hzl
  have hlen : x.length = x'.length := by omega
  rw [compute_cost_some_eq w b x y (by omega) (le_of_eq hxy),
    compute_cost_some_eq w b x' y' (by omega) (le_of_eq hxy'),
    sqSum_eq_zip_sum w b x y (le_of_eq hxy),
    sqSum_eq_zip_sum w b x' y' (le_of_eq hxy'), hlen,
    (hperm.map (fun p => (w * p.1 + b - p.2) ^ 2)).sum_eq]

theorem C4_witness :
    CostFunction.compute_cost 5 7 [1, 2] [3, 4]
      = CostFunction.compute_cost 5 7 [2, 1] [4, 3] :=
  C4_perm_invariant 5 7 [1, 2] [3, 4] [2, 1] [4, 3] rfl rfl (by decide)
    (List.Perm.swap ((2 : ℚ), (4 : ℚ)) ((1 : ℚ), (3 : ℚ)) [])

/-- C5: for `x = [1, 2]`, `y = [2, 4]`, `w = 2`, `b = 0` the cost is `0`
(perfect fit). -/
theorem C5_perfect_fit :
    CostFunction.compute_cost 2 0 [1, 2] [2, 4] = some 0 := by
  simp [CostFunction.compute_cost, costStep, List.range_succ]
  norm_num

/-- C6: for the single sample `x = [1]`, `y = [5]`, `w = 0`, `b = 0` the
cost is `(0 − 5)² / 2 = 25/2 = 12.5`. -/
theorem C6_single_sample :
    CostFunction.compute_cost 0 0 [1] [5] = some (25 / 2) := by
  simp [CostFunction.compute_cost, costStep, List.range_succ]
  norm_num

/-- C7: `compute_cost` is deterministic: two invocations on equal inputs
return equal results.  (Purity holds by construction: the embedding is a
function of its arguments only and alters no state.) -/
theorem C7_deterministic (w b w' b' : ℚ) (x y x' y' : List ℚ)
    (hw : w = w') (hb : b = b') (hx : x = x') (hy : y = y') :
    CostFunction.compute_cost w b x y
      = CostFunction.compute_cost w' b' x' y' := by
  subst hw; subst hb; subst hx; subst hy; rfl

theorem C7_witness :
    CostFunction.compute_cost 2 0 [1, 2] [2, 4]
      = CostFunction.compute_cost 2 0 [1, 2] [2, 4] :=
  C7_deterministic 2 0 2 0 [1, 2] [2, 4] [1, 2] [2, 4] rfl rfl rfl rfl

/-- C8: the `compute_cost` of `CostFunction.py` (parameter order
`(w, b, x, y)`) and the `compute_cost` of `LinearRegression.py`
(parameter order `(x, y, w, b)`) return equal values on every common
valid input. -/
theorem C8_implementations_agree (w b : ℚ) (x y : List ℚ)
    (h1 : x.length = y.length) (h2 : 1 ≤ x.length) :
    CostFunction.compute_cost w b x y
      = LinearRegression.compute_cost x y w b := rfl

theorem C8_witness :
    CostFunction.compute_cost 2 0 [1, 2] [2, 4]
      = LinearRegression.compute_cost [1, 2] [2, 4] 2 0 :=
  C8_implementations_agree 2 0 [1, 2] [2, 4] (by decide) (by decide)

/-- C9: when `y` is strictly longer than `x` (and `x` is nonempty),
`compute_cost` raises no error and returns the cost computed over the
first `m = len(x)` pairs only, ignoring the extra elements of `y`. -/
theorem C9_longer_y_ignored (w b : ℚ) (x y : List ℚ)
    (h1 : x.length < y.length) (h2 : 1 ≤ x.length) :
    CostFunction.compute_cost w b x y ≠ none ∧
    CostFunction.compute_cost w b x y
      = CostFunction.compute_cost w b x (y.take x.length) := by
  have ht : (y.take x.length).length = x.length := by
    rw [List.length_take]; omega
  have e1 := compute_cost_some_eq w b x y (by omega) (by omega)
  have e2 := compute_cost_some_eq w b x (y.take x.length) (by omega)
    (le_of_eq ht.symm)
  refine ⟨by rw [e1]; simp, ?_⟩
  rw [e1, e2, sqSum_take]

theorem C9_witness :
    CostFunction.compute_cost 0 0 [1] [5, 6] ≠ none ∧
    CostFunction.compute_cost 0 0 [1] [5, 6]
      = CostFunction.compute_cost 0 0 [1]
          (([5, 6] : List ℚ).take ([1] : List ℚ).length) :=
  C9_longer_y_ignored 0 0 [1] [5, 6] (by decide) (by decide)

/-- C10: `compite_model_output(x, w, b)` returns a sequence of exactly
`len(x)` elements whose `j`-th element is `w·x[j] + b` for every
`j < len(x)`. -/
theorem C10_model_output_spec (x : List ℚ) (w b : ℚ) :
    (ModelOutput.compite_model_output x w b).length = x.length ∧
    ∀ j, j < x.length →
      (ModelOutput.compite_model_output x w b).getD j 0
        = w * x.getD j 0 + b := by
  constructor
  · simp only [ModelOutput.compite_model_output]
    rw [length_foldl_set]
    simp
  · intro j hj
    simp only [ModelOutput.compite_model_output]
    exact getD_foldl_set_range (fun i => w * x.getD i 0 + b)
      (List.replicate x.length 0) x.length (by simp) j hj

theorem C10_witness :
    (ModelOutput.compite_model_output [1, 2, 4] 130 200).getD 1 0
      = 130 * (([1, 2, 4] : List ℚ).getD 1 0) + 200 :=
  (C10_model_output_spec [1, 2, 4] 130 200).2 1 (by decide)

end MLCourse
